import Mathlib

/-!
Verification development for the luci docstring engine
(`src/docstrings.py`, `src/queries.py`, `src/luci.py`).

The engine walks a libcst concrete syntax tree of a Python module,
and on leaving every function definition decides to create, update,
strip or validate its docstring.  We shallowly embed:

* a subset of libcst trees (modules whose statements are simple
  statement lines, function definitions and class definitions, with
  the trailing comment of a `def`/`class` header line modelled, since
  `cst.IndentedBlock(body=...)` resets it to the default);
* the `DocstringService.DocstringUpdater` transformer state and its
  hooks (`visit_FunctionDef`, `leave_FunctionDef`, `visit_ClassDef`,
  `leave_ClassDef`, `update_docstring`, `create_docstring`,
  `format_docstring`), with the oracle (`queries.generate_docstring`
  / `queries.validate_docstring` as called from docstrings.py)
  abstracted into an `Oracle` record and instrumented by a call
  counter;
* `queries.generate_docstring` / `queries.validate_docstring`
  themselves over an abstract network/formatting environment;
* the fragment of Python's `textwrap.TextWrapper` used by
  `format_docstring` (tab expansion, whitespace replacement, greedy
  filling with `drop_whitespace` and `break_long_words`; the extra
  hyphen-aware chunking of `break_on_hyphens` only refines chunk
  granularity and is not modelled).

Recursions over the nested tree type use an explicit recursion-depth
budget (`fuel`), structurally decreasing, so that all definitions
evaluate by kernel reduction; entry points pass `stmtListSize t + 1`,
which bounds the recursion depth of the corresponding Python
functions.
-/

namespace Luci

/-! ### Python string primitives -/

/-- Python whitespace characters, as used by `str.strip()` and
`textwrap` (`' '`, `\t`, `\n`, `\r`, `\x0b`, `\x0c`). -/
def pyWsChar (c : Char) : Bool :=
  c = ' ' || c = '\t' || c = '\n' || c = '\r' || c = '\x0b' || c = '\x0c'

/-- `str.strip()` on a character list. -/
def pyStripData (l : List Char) : List Char :=
  ((l.dropWhile pyWsChar).reverse.dropWhile pyWsChar).reverse

/-- Python `s.strip()`. -/
def pyStrip (s : String) : String := String.mk (pyStripData s.data)

/-- Python `s.strip(c)` for a one-character strip set. -/
def pyStripChar (c : Char) (s : String) : String :=
  String.mk (((s.data.dropWhile (· = c)).reverse.dropWhile (· = c)).reverse)

/-- Python `s.split(sep)` for a one-character separator: splits at every
occurrence and keeps empty pieces (`''.split` gives `['']`). -/
def splitOnChar (c : Char) : List Char → List (List Char)
  | [] => [[]]
  | x :: xs =>
    if x = c then [] :: splitOnChar c xs
    else
      match splitOnChar c xs with
      | [] => [[x]]
      | h :: t => (x :: h) :: t

/-- Python `s.split('\n')`, as used by `format_docstring`. -/
def pyLines (s : String) : List String := (splitOnChar '\n' s.data).map String.mk

/-- Python `sep.join(xs)`. -/
def pyJoin (sep : String) : List String → String
  | [] => ""
  | [x] => x
  | x :: xs => x ++ sep ++ pyJoin sep xs

/-- Python `needle in hay` on strings (substring containment). -/
def dataContains (needle hay : List Char) : Bool :=
  decide (needle <:+: hay)

/-- ASCII `str.lower()` on one character (sufficient for the `\w+`
answers matched in `validate_docstring`). -/
def pyLowerChar (c : Char) : Char :=
  if 'A' ≤ c ∧ c ≤ 'Z' then Char.ofNat (c.toNat + 32) else c

/-- ASCII `str.lower()`. -/
def pyLower (s : String) : String := String.mk (s.data.map pyLowerChar)

/-- One character of a regex `\w` class (ASCII approximation). -/
def isWordChar (c : Char) : Bool := c.isAlphanum || c = '_'

/-! ### The modelled libcst tree

`SmallStmt.str t` is `cst.Expr(cst.SimpleString t)` (the token text `t`
includes its quote delimiters); `SmallStmt.other` is any other small
statement, carried as its source text.  `Stmt.simple` is a
`cst.SimpleStatementLine`; `Stmt.funcDefn name params headerComment body`
is a `cst.FunctionDef` whose `IndentedBlock` has the given statements
and whose header `TrailingWhitespace` carries the optional trailing
comment of the `def` line (including its leading spaces and `#`);
`Stmt.classDefn` likewise.  Blocks are modelled with the module default
indent (four spaces), matching what `add_leading_whitespace` captures
for them. -/

inductive SmallStmt where
  | str (text : String)
  | other (code : String)
deriving Repr

inductive Stmt where
  | simple (smalls : List SmallStmt)
  | funcDefn (name : String) (params : String) (headerComment : Option String) (body : List Stmt)
  | classDefn (name : String) (headerComment : Option String) (body : List Stmt)
deriving Repr

mutual
/-- Number of nodes of a statement (used as a recursion-depth budget). -/
def stmtSize : Stmt → Nat
  | .simple _ => 1
  | .funcDefn _ _ _ body => 1 + stmtListSize body
  | .classDefn _ _ body => 1 + stmtListSize body
/-- Number of nodes of a statement list. -/
def stmtListSize : List Stmt → Nat
  | [] => 1
  | s :: rest => 1 + stmtSize s + stmtListSize rest
end

/-- Source text of one small statement. -/
def smallCode : SmallStmt → String
  | .str t => t
  | .other c => c

/-- Code generation for a statement list at a given indentation,
mirroring libcst's `Module.code` on the modelled subset: simple
statement lines join their small statements with `; `, a suite header
renders its trailing comment before the newline, and block bodies are
indented one further default level.  `fuel` bounds the recursion
depth; callers pass `stmtListSize stmts + 1`, which suffices since
every recursive call decrements `fuel` once while descending into a
strictly smaller list or body. -/
def stmtsCode : Nat → String → List Stmt → String
  | 0, _, _ => ""
  | _ + 1, _, [] => ""
  | fuel + 1, ind, .simple ss :: rest =>
      ind ++ pyJoin "; " (ss.map smallCode) ++ "\n" ++ stmtsCode fuel ind rest
  | fuel + 1, ind, .funcDefn n p hc body :: rest =>
      ind ++ "def " ++ n ++ "(" ++ p ++ "):" ++ hc.getD "" ++ "\n"
        ++ stmtsCode fuel (ind ++ "    ") body
        ++ stmtsCode fuel ind rest
  | fuel + 1, ind, .classDefn n hc body :: rest =>
      ind ++ "class " ++ n ++ ":" ++ hc.getD "" ++ "\n"
        ++ stmtsCode fuel (ind ++ "    ") body
        ++ stmtsCode fuel ind rest

/-- `cst.Module(body=stmts).code`: serialize a whole module.  Because
libcst trees are lossless, this applied to a parsed, unmodified tree is
the original file text. -/
def moduleCode (stmts : List Stmt) : String := stmtsCode (stmtListSize stmts + 1) "" stmts

/-- `convert_functiondef_to_string` (docstrings.py:56) with its default
`remove_docstring=False`, i.e. `cst.Module(body=[function_def]).code`
(the `remove_docstring=True` branch is never exercised by
docstrings.py). -/
def convert_functiondef_to_string (node : Stmt) : String := moduleCode [node]

/-- `FunctionDef.get_docstring()` on the modelled subset: the value of
a leading bare string-literal expression statement, with its quote
delimiters removed (libcst returns the evaluated string value). -/
def stripDelims (t : String) : String :=
  let d := t.data
  if "\"\"\"".data.isPrefixOf d ∧ "\"\"\"".data.isSuffixOf d ∧ 6 ≤ d.length then
    String.mk ((d.take (d.length - 3)).drop 3)
  else if "\x27\x27\x27".data.isPrefixOf d ∧ "\x27\x27\x27".data.isSuffixOf d ∧ 6 ≤ d.length then
    String.mk ((d.take (d.length - 3)).drop 3)
  else if "\"".data.isPrefixOf d ∧ "\"".data.isSuffixOf d ∧ 2 ≤ d.length then
    String.mk ((d.take (d.length - 1)).drop 1)
  else if "\x27".data.isPrefixOf d ∧ "\x27".data.isSuffixOf d ∧ 2 ≤ d.length then
    String.mk ((d.take (d.length - 1)).drop 1)
  else t

/-- `updated_node.get_docstring()` over a function body. -/
def getDocstring : List Stmt → Option String
  | .simple (.str t :: _) :: _ => some (stripDelims t)
  | _ => none

/-! ### The textwrap fragment used by `format_docstring`

`format_docstring` (docstrings.py:299) builds, per input line, a
`textwrap.TextWrapper(width=len(lws)+80, initial_indent=lws,
subsequent_indent=lws)` and calls `wrap`.  We model `wrap` faithfully
for that configuration: `_munge_whitespace` (tab expansion with tab
stops of 8, then replacement of whitespace by spaces), chunking into
maximal runs of spaces / non-spaces (`break_on_hyphens` would further
split non-space chunks at hyphens, which neither the wrapped lines'
length bound nor their indent prefix depends on), then `_wrap_chunks`
with `drop_whitespace=True` and `break_long_words=True`.  Inside
`_wrap_chunks` Python computes the local budget
`width = self.width - len(indent)`, which for `format_docstring` is
exactly 80; our functions take that local budget as `avail`. -/

/-- `str.expandtabs()` (tab stops of 8; column resets on newline and
carriage return). -/
def expandTabsGo : Nat → List Char → List Char
  | _, [] => []
  | col, c :: cs =>
    if c = '\t' then
      List.replicate (8 - col % 8) ' ' ++ expandTabsGo (col + (8 - col % 8)) cs
    else if c = '\n' ∨ c = '\r' then c :: expandTabsGo 0 cs
    else c :: expandTabsGo (col + 1) cs

/-- `TextWrapper._munge_whitespace`: expand tabs, then replace each
whitespace character by a space. -/
def mungeLine (s : String) : List Char :=
  (expandTabsGo 0 s.data).map (fun c => if pyWsChar c then ' ' else c)

/-- Prepend one character to a chunk list: extend the first chunk when
the space/non-space kind matches, else open a new chunk. -/
def chunksAdd (c : Char) : List (List Char) → List (List Char)
  | [] => [[c]]
  | (d :: ds) :: rest =>
    if (c == ' ') = (d == ' ') then (c :: d :: ds) :: rest
    else [c] :: (d :: ds) :: rest
  | [] :: rest => [c] :: rest

/-- Split a munged line into maximal runs of spaces / non-spaces
(the chunking of `TextWrapper._split`, without the hyphen refinement). -/
def chunksGo : List Char → List (List Char)
  | [] => []
  | c :: cs => chunksAdd c (chunksGo cs)

/-- A whitespace chunk (`chunk.strip() == ''`; after munging all
whitespace is spaces). -/
def isSpaceChunk (ch : List Char) : Bool := ch.all (· == ' ')

/-- Total character count of a chunk list. -/
def chunksLen (l : List (List Char)) : Nat := (l.map List.length).sum

/-- The greedy inner loop of `_wrap_chunks`: move chunks onto the
current line while the accumulated length stays within `avail`.
Returns the chunks taken and the chunks remaining. -/
def takeChunks (avail : Nat) : Nat → List (List Char) → (List (List Char) × List (List Char))
  | _, [] => ([], [])
  | curLen, ch :: rest =>
    if curLen + ch.length ≤ avail then
      let tk := takeChunks avail (curLen + ch.length) rest
      (ch :: tk.1, tk.2)
    else ([], ch :: rest)

/-- `drop_whitespace` at the end of a line: delete the last chunk of
the current line if it is whitespace. -/
def dropTrailingSpaceChunk (l : List (List Char)) : List (List Char) :=
  match l.getLast? with
  | some ch => if isSpaceChunk ch then l.dropLast else l
  | none => l

/-- `drop_whitespace` at the start of a line: delete a leading
whitespace chunk unless no line has been emitted yet (`first`, Python
tests `lines`). -/
def dropLeadingSpaceChunk (first : Bool) (chunks : List (List Char)) : List (List Char) :=
  match first, chunks with
  | false, ch :: rest => if isSpaceChunk ch then rest else chunks
  | _, _ => chunks

/-- `_handle_long_word` with `break_long_words=True`: when the next
chunk is longer than the budget, break it at the space left on the
current line (at least one character when the budget is below one). -/
def longWordStep (avail : Nat) (taken rest : List (List Char)) :
    List (List Char) × List (List Char) :=
  match rest with
  | ch :: rest2 =>
    if avail < ch.length then
      let spaceLeft := if avail < 1 then 1 else avail - chunksLen taken
      (taken ++ [ch.take spaceLeft], ch.drop spaceLeft :: rest2)
    else (taken, rest)
  | [] => (taken, [])

/-- One iteration of the outer loop of `_wrap_chunks`: delete a
leading whitespace chunk, greedily take chunks, break a long word, and
delete a trailing whitespace chunk.  Returns the chunks of the line
(empty: no line emitted) and the remaining chunks. -/
def wrapStep (avail : Nat) (first : Bool) (chunks : List (List Char)) :
    List (List Char) × List (List Char) :=
  let tk := takeChunks avail 0 (dropLeadingSpaceChunk first chunks)
  let step := longWordStep avail tk.1 tk.2
  (dropTrailingSpaceChunk step.1, step.2)

/-- The outer loop of `_wrap_chunks`.  `fuel` bounds the number of
iterations; every iteration consumes at least one chunk or one
character, so `pyWrap`'s budget suffices. -/
def wrapGo (avail : Nat) (ind : String) : Nat → Bool → List (List Char) → List String
  | 0, _, _ => []
  | _ + 1, _, [] => []
  | fuel + 1, first, ch :: rest =>
    let ws := wrapStep avail first (ch :: rest)
    if ws.1.isEmpty then wrapGo avail ind fuel first ws.2
    else (ind ++ String.mk ws.1.flatten) :: wrapGo avail ind fuel false ws.2

/-- `TextWrapper(width=avail+len(ind), initial_indent=ind,
subsequent_indent=ind).wrap(line)`, with `avail` the local budget past
the indent.  The fuel `2*len+2` dominates the loop measure
(chunk count + character count + 1). -/
def pyWrap (avail : Nat) (ind : String) (line : String) : List String :=
  wrapGo avail ind (2 * (mungeLine line).length + 2) true (chunksGo (mungeLine line))

/-- `format_docstring` (docstrings.py:299): wrap each line of the
stripped docstring at `total_width = len(leading_whitespace) + 80`
with the leading whitespace as both indents (so the budget past the
indent is exactly 80), then join and surround with triple quotes, the
closing one indented. -/
def format_docstring (leading_whitespace : String) (docstring : String) : String :=
  let lines := pyLines (pyStrip docstring)
  let formatted := lines.map (fun line => pyJoin "\n" (pyWrap 80 leading_whitespace line))
  "\"\"\"\n" ++ pyJoin "\n" formatted ++ "\n" ++ leading_whitespace ++ "\"\"\""

/-- The lines a wrapped input line contributes to the formatted
docstring: a line that wraps to nothing (blank or whitespace-only)
contributes a single empty output line. -/
def wrappedOrBlank (lws : String) (line : String) : List String :=
  match pyWrap 80 lws line with
  | [] => [""]
  | ws => ws

/-- The full line decomposition of `format_docstring lws doc`:
opening delimiter, the wrapped lines of each input line, and the
indented closing delimiter. -/
def format_docstring_lines (lws : String) (docstring : String) : List String :=
  "\"\"\"" :: (pyLines (pyStrip docstring)).flatMap (wrappedOrBlank lws) ++ [lws ++ "\"\"\""]

/-! ### The docstring engine (`DocstringService.DocstringUpdater`) -/

/-- The command-line options consumed by the engine (luci.py
`get_arguments`; only the fields docstrings.py reads). -/
structure Options where
  attempts : Nat
  create : Bool
  depth : Nat
  strip : Bool
  update : Bool
  validate : Bool

/-- The oracle boundary of the engine: `queries.generate_docstring`
(arguments: fully-qualified name, simple name, serialized function
code, current docstring; `None` models exhaustion) and
`queries.validate_docstring` as invoked from `update_docstring`
(arguments: simple name, serialized function code, the quoted current
docstring; result: validated flag and assessment text). -/
structure Oracle where
  generate : String → String → String → Option String → Option String
  validate : String → String → String → Bool × String

/-- The mutable state of a `DocstringUpdater` instance, plus an
instrumentation counter `oracleCalls` counting the calls made to the
oracle operations (each a network interaction in the source). -/
structure UpdaterState where
  class_level : Nat
  function_level : Nat
  fully_qualified_function_name : List String
  reports : List String
  qualified_function_names : Option (List String)
  leading_whitespace : List String
  modified : Bool
  oracleCalls : Nat

/-- `DocstringUpdater.__init__`. -/
def initState (qualified_function_names : Option (List String)) : UpdaterState where
  class_level := 0
  function_level := 0
  fully_qualified_function_name := []
  reports := []
  qualified_function_names := qualified_function_names
  leading_whitespace := []
  modified := false
  oracleCalls := 0

/-- `get_fully_qualified_function_name`: dot-join of the name stack
(module name excluded). -/
def getFQFN (st : UpdaterState) : String :=
  pyJoin "." st.fully_qualified_function_name

/-- `get_leading_whitespace`: concatenation of the whitespace stack. -/
def get_leading_whitespace (st : UpdaterState) : String :=
  String.join st.leading_whitespace

/-- `visit_FunctionDef` together with `add_leading_whitespace`: bump
the function level, push the simple name, and push the captured
leading whitespace of the body.  For a default-indent block,
`add_leading_whitespace` renders the `IndentedBlock` inside an empty
module and keeps the whitespace run after the last newline, which is
one default indent, four spaces. -/
def visit_FunctionDef (st : UpdaterState) (name : String) : UpdaterState :=
  { st with
    function_level := st.function_level + 1
    fully_qualified_function_name := st.fully_qualified_function_name ++ [name]
    leading_whitespace := st.leading_whitespace ++ ["    "] }

/-- `visit_ClassDef`: bump the class level, push the name and the
captured leading whitespace. -/
def visit_ClassDef (st : UpdaterState) (name : String) : UpdaterState :=
  { st with
    class_level := st.class_level + 1
    fully_qualified_function_name := st.fully_qualified_function_name ++ [name]
    leading_whitespace := st.leading_whitespace ++ ["    "] }

/-- `leave_ClassDef`: undo the class bookkeeping and return the node
unchanged.  (The `list.pop()` calls would raise `IndexError` on empty
stacks, a state unreachable during a traversal, which always pushes
before leaving; we model them with `dropLast`.) -/
def leave_ClassDef (st : UpdaterState) : UpdaterState :=
  { st with
    class_level := st.class_level - 1
    fully_qualified_function_name := st.fully_qualified_function_name.dropLast
    leading_whitespace := st.leading_whitespace.dropLast }

/-- The 70-dash separator of a validation report. -/
def dashes70 : String := String.mk (List.replicate 70 '-')

/-- `update_docstring` (docstrings.py:335), for a function node
`funcDefn n p hc body`.  The final two lines of the source rebuild the
body as `cst.IndentedBlock(body=body_statements)`, a block with
default header/indent/footer, so the returned node's header comment is
reset to `none` in every path through this function.  If `do_update`
fires and `queries.generate_docstring` returns `None`, the source
passes `None` to `format_docstring`, which raises `AttributeError` on
`None.strip()`; that exception is modelled as an error result. -/
def update_docstring (opts : Options) (oracle : Oracle) (st : UpdaterState)
    (fully_qualified_function_name function_name current_docstring : String)
    (n p : String) (hc : Option String) (body : List Stmt) (action_taken : String) :
    Except String (UpdaterState × Stmt × String) :=
  let function_code := convert_functiondef_to_string (.funcDefn n p hc body)
  let do_update := opts.update
  let strip_docstring := opts.strip
  let va :=
    if opts.validate then
      let v := oracle.validate function_name function_code
        ("\"\"\"" ++ current_docstring ++ "\"\"\"")
      let report := dashes70 ++ "\nValidation report for " ++ fully_qualified_function_name
        ++ ": " ++ (if v.1 then "PASS" else "FAILED") ++ "\n" ++ v.2
      ({ st with reports := st.reports ++ [report], oracleCalls := st.oracleCalls + 1 },
        (if v.1 then false else do_update), (if v.1 then false else strip_docstring))
    else (st, do_update, strip_docstring)
  let st := va.1
  let do_update := va.2.1
  let strip_docstring := va.2.2
  match body with
  | .simple (.str t :: ss) :: rest =>
    if strip_docstring then
      -- pop the first statement, assuming it is the docstring
      .ok ({ st with modified := true },
        .funcDefn n p none rest, "stripped existing docstring")
    else if do_update then
      match oracle.generate fully_qualified_function_name function_name function_code
          (some current_docstring) with
      | none =>
        .error "AttributeError: NoneType object has no attribute strip"
      | some nd =>
        let nd := format_docstring (get_leading_whitespace st) nd
        .ok ({ st with modified := true, oracleCalls := st.oracleCalls + 1 },
          .funcDefn n p none (.simple [.str nd] :: rest), "updated existing docstring")
    else .ok (st, .funcDefn n p none (.simple (.str t :: ss) :: rest), action_taken)
  | other => .ok (st, .funcDefn n p none other, action_taken)

/-- `create_docstring` (docstrings.py:405).  Only the successful
creation path rebuilds the body (and hence resets the header
comment); with `create` unset or on oracle exhaustion the node is
returned untouched. -/
def create_docstring (opts : Options) (oracle : Oracle) (st : UpdaterState)
    (fully_qualified_function_name function_name : String)
    (current_docstring : Option String)
    (n p : String) (hc : Option String) (body : List Stmt) (action_taken : String) :
    UpdaterState × Stmt × String :=
  if opts.create then
    let function_code := convert_functiondef_to_string (.funcDefn n p hc body)
    match oracle.generate fully_qualified_function_name function_name function_code
        current_docstring with
    | some nd =>
      let nd := format_docstring (get_leading_whitespace st) nd
      ({ st with modified := true, oracleCalls := st.oracleCalls + 1 },
        .funcDefn n p none (.simple [.str nd] :: body), "created a new docstring")
    | none =>
      ({ st with oracleCalls := st.oracleCalls + 1 },
        .funcDefn n p hc body, "failed to create new docstring, leaving as-is")
  else (st, .funcDefn n p hc body, action_taken)

/-- `leave_FunctionDef` (docstrings.py:463).  In the over-depth branch,
when the fully-qualified name is in the supplied list, the source
executes `self.logging.warning(action_taken)` (docstrings.py:503); the
transformer has no attribute `logging` (its logger is `self.logger`),
so this raises `AttributeError` and aborts the traversal — modelled as
an error result. -/
def leave_FunctionDef (opts : Options) (oracle : Oracle) (st : UpdaterState)
    (n p : String) (hc : Option String) (body : List Stmt) :
    Except String (UpdaterState × Stmt) :=
  let action_taken := "did nothing"
  let function_name := n
  let fqfn := getFQFN st
  let res : Except String (UpdaterState × Stmt × String) :=
    if opts.depth < st.function_level ∨ opts.depth < st.class_level then
      let action_taken := "skipped due to high nesting level -- function_level: "
        ++ toString st.function_level ++ ", class_level: " ++ toString st.class_level
      if (match st.qualified_function_names with
          | some l => decide (fqfn ∈ l)
          | none => false) then
        .error "AttributeError: DocstringUpdater object has no attribute logging"
      else
        .ok (st, .funcDefn n p hc body, action_taken)
    else
      let do_process :=
        match st.qualified_function_names with
        | some l => decide (fqfn ∈ l)
        | none => true
      if do_process then
        match getDocstring body with
        | none =>
          .ok (create_docstring opts oracle st fqfn function_name none n p hc body action_taken)
        | some current_docstring =>
          update_docstring opts oracle st fqfn function_name current_docstring
            n p hc body action_taken
      else
        .ok (st, .funcDefn n p hc body,
          "Skipped because it is not in the decorated filename list of functions to document.")
  match res with
  | .error e => .error e
  | .ok (st, node, action_taken) =>
    .ok ({ st with
      leading_whitespace := st.leading_whitespace.dropLast
      function_level := st.function_level - 1
      reports := st.reports ++ [fqfn ++ ": " ++ action_taken]
      fully_qualified_function_name := st.fully_qualified_function_name.dropLast },
      node)

/-- `cst.Module.visit` with a `DocstringUpdater`: depth-first document
order, calling the enter hooks before descending into a definition's
body and the leave hooks afterwards.  `fuel` bounds the recursion
depth; entry points pass `stmtListSize stmts + 1`, which suffices
since every recursive call decrements `fuel` once while moving to a
strictly smaller list or body. -/
def visitStmts (opts : Options) (oracle : Oracle) :
    Nat → UpdaterState → List Stmt → Except String (UpdaterState × List Stmt)
  | 0, _, _ => .error "recursion budget exhausted"
  | _ + 1, st, [] => .ok (st, [])
  | fuel + 1, st, .simple ss :: rest =>
    match visitStmts opts oracle fuel st rest with
    | .error e => .error e
    | .ok (st1, rest1) => .ok (st1, .simple ss :: rest1)
  | fuel + 1, st, .funcDefn n p hc body :: rest =>
    match visitStmts opts oracle fuel (visit_FunctionDef st n) body with
    | .error e => .error e
    | .ok (st1, body1) =>
      match leave_FunctionDef opts oracle st1 n p hc body1 with
      | .error e => .error e
      | .ok (st2, node) =>
        match visitStmts opts oracle fuel st2 rest with
        | .error e => .error e
        | .ok (st3, rest1) => .ok (st3, node :: rest1)
  | fuel + 1, st, .classDefn n hc body :: rest =>
    match visitStmts opts oracle fuel (visit_ClassDef st n) body with
    | .error e => .error e
    | .ok (st1, body1) =>
      match visitStmts opts oracle fuel (leave_ClassDef st1) rest with
      | .error e => .error e
      | .ok (st2, rest1) => .ok (st2, .classDefn n hc body1 :: rest1)

/-- `DocstringService.document_file` (docstrings.py:551) from the
parsed tree on: run the transformer over the module and return the
serialized result, the reports and the modified flag.  (File reading
and `cst.parse_module` stay outside the model; since libcst trees are
lossless, the input text is `moduleCode tree`.) -/
def document_file (opts : Options) (oracle : Oracle)
    (qualified_function_names : Option (List String)) (tree : List Stmt) :
    Except String (String × List String × Bool) :=
  match visitStmts opts oracle (stmtListSize tree + 1) (initState qualified_function_names) tree with
  | .error e => .error e
  | .ok (st, tree1) => .ok (moduleCode tree1, st.reports, st.modified)

/-! ### `queries.generate_docstring` and `queries.validate_docstring`

These are embedded over an abstract environment standing for the
network and JSON-formatting stages: `formatted i` is the value of
`formatting.generate_documentation(formatting.extract_json(
ollama.query(...)), formatting.format_spec_python)` on the `i`-th
attempt of the generation loop (queries.py:148-151) — an exception
anywhere on those lines is an `error`, and `generate_documentation`
returning `None` is `ok none`; `execOutcome d` is the outcome of
`exec`-ing the dummy function whose body is the docstring `d`
(queries.py:201-206); `validateAnswer i` is the `ollama.query` result
on the `i`-th attempt of the validation loop (queries.py:212-213),
with exceptions as `error`.  The environment is a fixed function of
the attempt index, modelling one deterministic sequence of network
interactions. -/

/-- Outcome of `exec`-ing the dummy code built around a docstring:
normal completion, a `SyntaxError` (the only exception the source
catches), or any other exception, which propagates. -/
inductive ExecOutcome where
  | ok
  | syntaxError
  | otherError (msg : String)

/-- Abstract network/formatting environment for the queries layer. -/
structure GenEnv where
  formatted : Nat → Except String (Option String)
  execOutcome : String → ExecOutcome
  validateAnswer : Nat → Except String String

/-- `re.findall(r'ANSWER:\s*(\w+)', result)` (ASCII `\w`).  `fuel`
bounds the scan; each step consumes at least one character, so
`length + 1` suffices. -/
def findAnswersGo : Nat → List Char → List String
  | 0, _ => []
  | _ + 1, [] => []
  | fuel + 1, l@(_ :: cs) =>
    if "ANSWER:".data.isPrefixOf l then
      let afterWs := (l.drop 7).dropWhile pyWsChar
      let w := afterWs.takeWhile isWordChar
      if w.isEmpty then findAnswersGo fuel cs
      else String.mk w :: findAnswersGo fuel (afterWs.drop w.length)
    else findAnswersGo fuel cs

/-- All words following `ANSWER:` and optional whitespace. -/
def findAnswers (s : String) : List String :=
  findAnswersGo (s.data.length + 1) s.data

/-- The quoting test of `validate_docstring` (queries.py:208), stated
positively: starts and ends with `\"\"\"` and does not contain it
strictly inside (`docstring[3:-3]`). -/
def quotingOk (docstring : String) : Bool :=
  "\"\"\"".data.isPrefixOf docstring.data
    && "\"\"\"".data.isSuffixOf docstring.data
    && !(dataContains "\"\"\"".data ((docstring.data.take (docstring.data.length - 3)).drop 3))

/-- The retry loop of `validate_docstring` (queries.py:212-226):
`rem` attempts remain, `i` is the next attempt index, `report` is the
last failing result (initially `None`). -/
def validateLoop (env : GenEnv) : Nat → Nat → Option String →
    Except String (Bool × Option String)
  | 0, _, report => .ok (false, report)
  | rem + 1, i, _ =>
    match env.validateAnswer i with
    | .error e => .error e
    | .ok result =>
      let answers := findAnswers result
      let valid := !answers.isEmpty && answers.all (fun a => pyLower a == "correct")
      if valid then .ok (true, some result)
      else validateLoop env rem (i + 1) (some result)

/-- `queries.validate_docstring` (queries.py:160): syntax-check the
docstring by `exec`-ing a dummy function (a `SyntaxError` fails
validation, any other exception propagates), locally reject malformed
delimiter quoting, then ask the oracle up to `attempts` times for an
all-`correct` `ANSWER:`. -/
def validate_docstring (env : GenEnv) (attempts : Nat) (docstring : String) :
    Except String (Bool × Option String) :=
  match env.execOutcome docstring with
  | .syntaxError => .ok (false, some "Docstring syntax not valid")
  | .otherError e => .error e
  | .ok =>
    if !quotingOk docstring then
      .ok (false, some ("Failed simple string test (incorrect quoting): " ++ docstring))
    else
      validateLoop env attempts 0 none

/-- The attempt loop of `queries.generate_docstring`
(queries.py:148-157).  An exception anywhere in the attempt (network,
JSON extraction, formatting, or inside `validate_docstring`) is
caught, logged and the next attempt begins; a `None` from
`generate_documentation` makes `validate_docstring` raise
`AttributeError` on `None.startswith`, likewise caught.  When
`validate_docstring` returns normally, the source tests
`if validate_docstring(...)` — the returned 2-tuple is always truthy
in Python, whatever boolean it carries — so the formatted docstring is
accepted and returned, stripped of `"` and then of `'` characters. -/
def generate_docstring_loop (env : GenEnv) (attempts : Nat) : Nat → Nat → Option String
  | 0, _ => none
  | rem + 1, i =>
    match env.formatted i with
    | .error _ => generate_docstring_loop env attempts rem (i + 1)
    | .ok none => generate_docstring_loop env attempts rem (i + 1)
    | .ok (some formatted) =>
      match validate_docstring env attempts formatted with
      | .error _ => generate_docstring_loop env attempts rem (i + 1)
      | .ok _ => some (pyStripChar '\x27' (pyStripChar '"' formatted))

/-- `queries.generate_docstring` (queries.py:104): up to
`options.attempts` attempts, `None` on exhaustion. -/
def generate_docstring (env : GenEnv) (attempts : Nat) : Option String :=
  generate_docstring_loop env attempts attempts 0

/-! ### Concrete fixtures used by closed theorems -/

/-- The luci.py defaults with every action flag off
(`create=update=strip=validate=False`, `depth=1`, `attempts=5`). -/
def noopOptions : Options :=
  { attempts := 5, create := false, depth := 1, strip := false, update := false, validate := false }

/-- All flags off except `strip`. -/
def stripOptions : Options := { noopOptions with strip := true }

/-- All flags off except `create`. -/
def createOptions : Options := { noopOptions with create := true }

/-- All flags off except `validate` and `update`. -/
def valUpdOptions : Options := { noopOptions with update := true, validate := true }

/-- An oracle none of whose answers is ever used positively. -/
def trivialOracle : Oracle :=
  { generate := fun _ _ _ _ => none, validate := fun _ _ _ => (false, "") }

/-- An oracle whose validate operation always passes. -/
def passOracle : Oracle :=
  { generate := fun _ _ _ _ => none, validate := fun _ _ _ => (true, "correct") }

/-- An oracle whose generate operation returns a fixed string. -/
def fixedOracle : Oracle :=
  { generate := fun _ _ _ _ => some "Checks equality with 42.",
    validate := fun _ _ _ => (false, "") }

/-- A queries-layer environment in which every attempt formats the
LLM answer into the single-quoted string `'hello'` — content whose
delimiter quoting is malformed for the Python format spec — and the
`exec` syntax probe succeeds (the body is a bare string literal). -/
def badQuoteEnv : GenEnv :=
  { formatted := fun _ => .ok (some "\x27hello\x27")
    execOutcome := fun _ => .ok
    validateAnswer := fun _ => .error "unused" }

/-- The not-in-list action string of `leave_FunctionDef`
(docstrings.py:509). -/
def notInListAction : String :=
  "Skipped because it is not in the decorated filename list of functions to document."

end Luci


namespace Luci

/-! ### Shared helper lemmas -/

/-- Splitting a string at `ANSWER:`-style literals: a string starting
with a known literal prefix decomposes as that prefix plus a rest. -/
theorem string_append_assoc4 (a b c d : String) :
    a ++ b ++ c ++ d = a ++ (b ++ (c ++ d)) := by
  simp [String.append_assoc]

/-- `"PASS"` occurs in a validation report built around it. -/
theorem pass_infix (A B : String) : "PASS".data <:+: (A ++ "PASS" ++ B).data :=
  ⟨A.data, B.data, by simp [String.data_append]⟩

end Luci

namespace Luci

/-! ### Claims C1, C2, C4: code bugs exhibited by concrete runs -/

/-- Claim C1 (code bug witness): with all of create/update/strip/validate
false, `document_file` on the module `def f():  # note\n    "d"\n`
returns a modified flag of `false` but output text that is NOT
byte-identical to the input: `update_docstring` unconditionally
rebuilds the function body as `cst.IndentedBlock(body=...)`
(docstrings.py:401-402), which resets the block header and drops the
trailing comment of the `def` line. -/
theorem c1_roundtrip_identity_violated :
    document_file noopOptions trivialOracle none
      [.funcDefn "f" "" (some "  # note") [.simple [.str "\"d\""]]]
      = .ok ("def f():\n    \"d\"\n", ["f: did nothing"], false)
    ∧ "def f():\n    \"d\"\n"
      ≠ moduleCode [.funcDefn "f" "" (some "  # note") [.simple [.str "\"d\""]]] :=
  ⟨rfl, by decide⟩

/-- Claim C2 (code bug witness): for the module
`def f():\n    def g():\n        pass\n` processed with `depth = 1`
and paths of interest `["f.g"]`, the nested function exceeds the depth
and its fully-qualified name is in the list, so `leave_FunctionDef`
reaches `self.logging.warning(...)` (docstrings.py:503); the updater
has no attribute `logging` (its logger is `self.logger`), so the
traversal raises `AttributeError` instead of logging an advisory
warning and continuing. -/
theorem c2_depth_warning_raises :
    document_file noopOptions trivialOracle (some ["f.g"])
      [.funcDefn "f" "" none [.funcDefn "g" "" none [.simple [.other "pass"]]]]
      = .error "AttributeError: DocstringUpdater object has no attribute logging" := rfl

/-- Claim C4 (code bug witness): in an environment where every attempt
formats the oracle answer into the single-quoted string `'hello'`
(malformed delimiter quoting for the Python spec), `validate_docstring`
does fail the simple string test, but `generate_docstring` tests the
truthiness of the returned 2-tuple (`if validate_docstring(...)`,
queries.py:152), which is always true, so the malformed docstring is
accepted and returned on the first of the 2 attempts instead of being
retried and exhausted to `None`. -/
theorem c4_malformed_quoting_accepted :
    generate_docstring badQuoteEnv 2 = some "hello"
    ∧ validate_docstring badQuoteEnv 2 "\x27hello\x27"
      = .ok (false, some ("Failed simple string test (incorrect quoting): " ++ "\x27hello\x27"))
    ∧ generate_docstring badQuoteEnv 2 ≠ none :=
  ⟨rfl, rfl, by decide⟩

/-! ### Claim C3: depth gate -/

/-- Claim C3 (counterexample): the claim "for depth < nesting level the
recorded action always starts with `skipped` and the node is returned
unchanged, for every configuration" fails when the function's
fully-qualified name is in the supplied paths list: on
`def a():\n    def b():\n        pass\n` with depth 1 and paths
`["a.b"]`, the traversal aborts with `AttributeError` and neither
records any action nor returns a node. -/
theorem c3_overdepth_in_list_counterexample :
    document_file noopOptions trivialOracle (some ["a.b"])
      [.funcDefn "a" "" none [.funcDefn "b" "" none [.simple [.other "pass"]]]]
      = .error "AttributeError: DocstringUpdater object has no attribute logging"
    ∧ ∀ res, document_file noopOptions trivialOracle (some ["a.b"])
        [.funcDefn "a" "" none [.funcDefn "b" "" none [.simple [.other "pass"]]]]
        ≠ .ok res := by
  refine ⟨rfl, fun res h => ?_⟩
  rw [show document_file noopOptions trivialOracle (some ["a.b"])
      [.funcDefn "a" "" none [.funcDefn "b" "" none [.simple [.other "pass"]]]]
      = .error "AttributeError: DocstringUpdater object has no attribute logging" from rfl] at h
  exact Except.noConfusion h

/-- Helper: the over-depth skip branch of `leave_FunctionDef`, when
the fully-qualified name is not in the supplied list (or no list was
supplied): the node is returned unchanged, only the report list grows,
and the action starts with "skipped". -/
theorem leave_over_depth_skip
    (opts : Options) (oracle : Oracle) (st : UpdaterState) (n p : String)
    (hc : Option String) (body : List Stmt)
    (hdepth : opts.depth < st.function_level ∨ opts.depth < st.class_level)
    (hnotin : ∀ l, st.qualified_function_names = some l → getFQFN st ∉ l) :
    ∃ act : String,
      leave_FunctionDef opts oracle st n p hc body
        = .ok ({ st with
            leading_whitespace := st.leading_whitespace.dropLast
            function_level := st.function_level - 1
            reports := st.reports ++ [getFQFN st ++ ": " ++ act]
            fully_qualified_function_name := st.fully_qualified_function_name.dropLast },
          .funcDefn n p hc body)
      ∧ ∃ rest, act = "skipped" ++ rest := by
  refine ⟨"skipped due to high nesting level -- function_level: "
      ++ toString st.function_level ++ ", class_level: " ++ toString st.class_level, ?_, ?_⟩
  · have hmatch : (match st.qualified_function_names with
        | some l => decide (getFQFN st ∈ l)
        | none => false) = false := by
      cases hq : st.qualified_function_names with
      | none => rfl
      | some l => exact decide_eq_false (hnotin l hq)
    simp only [leave_FunctionDef]
    rw [if_pos hdepth, if_neg (by rw [hmatch]; exact Bool.false_ne_true)]
  · refine ⟨" due to high nesting level -- function_level: "
      ++ toString st.function_level ++ ", class_level: " ++ toString st.class_level, ?_⟩
    rw [show ("skipped due to high nesting level -- function_level: " : String)
        = "skipped" ++ " due to high nesting level -- function_level: " from rfl]
    simp only [String.append_assoc]

/-- Claim C3 (amended): for a function whose nesting level exceeds the
configured depth, PROVIDED its fully-qualified name is not in the
supplied paths-of-interest list (or no list was supplied), the
recorded action starts with "skipped", the node is returned unchanged
(and with it the modified flag and the oracle-call count), regardless
of the create, update and strip flags. -/
theorem c3_depth_gate_amended
    (opts : Options) (oracle : Oracle) (st : UpdaterState) (n p : String)
    (hc : Option String) (body : List Stmt)
    (hdepth : opts.depth < st.function_level ∨ opts.depth < st.class_level)
    (hnotin : ∀ l, st.qualified_function_names = some l → getFQFN st ∉ l) :
    ∃ act : String,
      leave_FunctionDef opts oracle st n p hc body
        = .ok ({ st with
            leading_whitespace := st.leading_whitespace.dropLast
            function_level := st.function_level - 1
            reports := st.reports ++ [getFQFN st ++ ": " ++ act]
            fully_qualified_function_name := st.fully_qualified_function_name.dropLast },
          .funcDefn n p hc body)
      ∧ ∃ rest, act = "skipped" ++ rest :=
  leave_over_depth_skip opts oracle st n p hc body hdepth hnotin

/-- Witness for the amended C3 at a concrete over-depth state. -/
theorem c3_depth_gate_amended_witness :
    ∃ act : String,
      leave_FunctionDef noopOptions trivialOracle
        (visit_FunctionDef (visit_FunctionDef (initState (some [])) "a") "b")
        "b" "" none [.simple [.other "pass"]]
        = .ok ({ visit_FunctionDef (visit_FunctionDef (initState (some [])) "a") "b" with
            leading_whitespace :=
              (visit_FunctionDef (visit_FunctionDef (initState (some [])) "a") "b").leading_whitespace.dropLast
            function_level :=
              (visit_FunctionDef (visit_FunctionDef (initState (some [])) "a") "b").function_level - 1
            reports :=
              (visit_FunctionDef (visit_FunctionDef (initState (some [])) "a") "b").reports
                ++ [getFQFN (visit_FunctionDef (visit_FunctionDef (initState (some [])) "a") "b") ++ ": " ++ act]
            fully_qualified_function_name :=
              (visit_FunctionDef (visit_FunctionDef (initState (some [])) "a") "b").fully_qualified_function_name.dropLast },
          .funcDefn "b" "" none [.simple [.other "pass"]])
      ∧ ∃ rest, act = "skipped" ++ rest :=
  c3_depth_gate_amended noopOptions trivialOracle
    (visit_FunctionDef (visit_FunctionDef (initState (some [])) "a") "b")
    "b" "" none [.simple [.other "pass"]] (Or.inl (by decide))
    (fun l hl => by cases hl; simp)

end Luci

namespace Luci

/-! ### Claim C9: interest gate -/

/-- Claim C9: when a non-empty paths-of-interest list is supplied and
the function is within the depth limit but its fully-qualified name is
absent from the list, `leave_FunctionDef` records exactly the
not-in-list skip message ("skipped: not requested" in the
specification's wording) and does nothing else: the node is returned
unchanged, no oracle call is made (`oracleCalls` is preserved in the
resulting state), and neither the modified flag nor any other state
component changes. -/
theorem c9_interest_gate
    (opts : Options) (oracle : Oracle) (st : UpdaterState) (n p : String)
    (hc : Option String) (body : List Stmt) (l : List String)
    (hq : st.qualified_function_names = some l)
    (_hne : l ≠ [])
    (hnotin : getFQFN st ∉ l)
    (hf : st.function_level ≤ opts.depth) (hcl : st.class_level ≤ opts.depth) :
    leave_FunctionDef opts oracle st n p hc body
      = .ok ({ st with
          leading_whitespace := st.leading_whitespace.dropLast
          function_level := st.function_level - 1
          reports := st.reports ++ [getFQFN st ++ ": " ++ notInListAction]
          fully_qualified_function_name := st.fully_qualified_function_name.dropLast },
        .funcDefn n p hc body) := by
  simp only [leave_FunctionDef, hq]
  rw [if_neg (by omega : ¬(opts.depth < st.function_level ∨ opts.depth < st.class_level)),
    if_neg (by rw [decide_eq_false hnotin]; exact Bool.false_ne_true)]
  simp [hq, notInListAction]

/-- Witness for C9 at a concrete in-depth state whose name is not in
the list. -/
theorem c9_interest_gate_witness :
    leave_FunctionDef noopOptions trivialOracle
      (visit_FunctionDef (initState (some ["x"])) "f") "f" "" none [.simple [.other "pass"]]
      = .ok ({ visit_FunctionDef (initState (some ["x"])) "f" with
          leading_whitespace :=
            (visit_FunctionDef (initState (some ["x"])) "f").leading_whitespace.dropLast
          function_level :=
            (visit_FunctionDef (initState (some ["x"])) "f").function_level - 1
          reports := (visit_FunctionDef (initState (some ["x"])) "f").reports
            ++ [getFQFN (visit_FunctionDef (initState (some ["x"])) "f") ++ ": " ++ notInListAction]
          fully_qualified_function_name :=
            (visit_FunctionDef (initState (some ["x"])) "f").fully_qualified_function_name.dropLast },
        .funcDefn "f" "" none [.simple [.other "pass"]]) :=
  c9_interest_gate noopOptions trivialOracle
    (visit_FunctionDef (initState (some ["x"])) "f") "f" "" none [.simple [.other "pass"]]
    ["x"] rfl (by decide) (by decide) (by decide) (by decide)

/-! ### Claim C5: validate pass -/

/-- Claim C5 (counterexample): the claim asserts the function's text is
unchanged whenever validation passes with `validate=update=true`; on
`def f():  # c\n    "d"\n    pass\n` validation passes (the effective
update/strip decisions are both false, the flag stays `false`, and the
report contains PASS), yet the output text drops the trailing comment
of the `def` line, because `update_docstring` rebuilds the body as a
default `cst.IndentedBlock` even when it takes no action. -/
theorem c5_validate_pass_counterexample :
    document_file valUpdOptions passOracle none
      [.funcDefn "f" "" (some "  # c") [.simple [.str "\"d\""], .simple [.other "pass"]]]
      = .ok ("def f():\n    \"d\"\n    pass\n",
          [dashes70 ++ "\nValidation report for " ++ "f" ++ ": " ++ "PASS" ++ "\n" ++ "correct",
            "f: did nothing"], false)
    ∧ "def f():\n    \"d\"\n    pass\n"
      ≠ moduleCode [.funcDefn "f" "" (some "  # c") [.simple [.str "\"d\""], .simple [.other "pass"]]] :=
  ⟨rfl, by decide⟩

/-- Claim C5 (amended): for a function with an existing docstring whose
body block carries the default header (no trailing comment on the
`def` line), when `validate` is set and the oracle's validate
operation passes, the effective update and strip decisions are both
false, the node is returned unchanged, the action is unchanged, the
modified flag is unchanged, and the appended validation report
contains "PASS". -/
theorem c5_validate_pass_amended
    (opts : Options) (oracle : Oracle) (st : UpdaterState)
    (fqfn fname cur n p action a : String) (body : List Stmt)
    (hv : opts.validate = true)
    (hval : oracle.validate fname (convert_functiondef_to_string (.funcDefn n p none body))
        ("\"\"\"" ++ cur ++ "\"\"\"") = (true, a)) :
    update_docstring opts oracle st fqfn fname cur n p none body action
      = .ok ({ st with
          reports := st.reports
            ++ [dashes70 ++ "\nValidation report for " ++ fqfn ++ ": " ++ "PASS" ++ "\n" ++ a],
          oracleCalls := st.oracleCalls + 1 },
        .funcDefn n p none body, action)
    ∧ "PASS".data
      <:+: (dashes70 ++ "\nValidation report for " ++ fqfn ++ ": " ++ "PASS" ++ "\n" ++ a).data := by
  constructor
  · simp only [update_docstring, hv, if_true, hval]
    match body with
    | [] => rfl
    | .simple [] :: rest => rfl
    | .simple (.str t :: ss) :: rest => rfl
    | .simple (.other c :: ss) :: rest => rfl
    | .funcDefn n2 p2 hc2 b2 :: rest => rfl
    | .classDefn n2 hc2 b2 :: rest => rfl
  · exact ⟨(dashes70 ++ "\nValidation report for " ++ fqfn ++ ": ").data, ("\n" ++ a).data,
      by simp [String.data_append, List.append_assoc]⟩

/-- Witness for the amended C5 at a concrete passing validation. -/
theorem c5_validate_pass_amended_witness :
    update_docstring valUpdOptions passOracle (initState none)
      "f" "f" "d" "f" "" none [.simple [.str "\"d\""], .simple [.other "pass"]] "did nothing"
      = .ok ({ initState none with
          reports := (initState none).reports
            ++ [dashes70 ++ "\nValidation report for " ++ "f" ++ ": " ++ "PASS" ++ "\n" ++ "correct"],
          oracleCalls := (initState none).oracleCalls + 1 },
        .funcDefn "f" "" none [.simple [.str "\"d\""], .simple [.other "pass"]], "did nothing")
    ∧ "PASS".data
      <:+: (dashes70 ++ "\nValidation report for " ++ "f" ++ ": " ++ "PASS" ++ "\n" ++ "correct").data :=
  c5_validate_pass_amended valUpdOptions passOracle (initState none)
    "f" "f" "d" "f" "" "did nothing" "correct"
    [.simple [.str "\"d\""], .simple [.other "pass"]] rfl rfl

/-! ### Claim C6: creation adds exactly one statement -/

/-- Claim C6: for a function with no docstring processed with
`create=true` and an oracle generate operation returning the string
`s`, `create_docstring` prepends exactly one statement — the reformatted
`s` wrapped in the grammar's `\"\"\"` delimiters — so the body statement
count increases by one, the modified flag is set, and the recorded
action is "created a new docstring". -/
theorem c6_creation_adds_one_statement
    (opts : Options) (oracle : Oracle) (st : UpdaterState)
    (fqfn fname n p action s : String) (hc : Option String) (body : List Stmt)
    (hcreate : opts.create = true)
    (hgen : oracle.generate fqfn fname (convert_functiondef_to_string (.funcDefn n p hc body))
        none = some s) :
    create_docstring opts oracle st fqfn fname none n p hc body action
      = ({ st with modified := true, oracleCalls := st.oracleCalls + 1 },
        .funcDefn n p none
          (.simple [.str (format_docstring (get_leading_whitespace st) s)] :: body),
        "created a new docstring")
    ∧ (Stmt.simple [.str (format_docstring (get_leading_whitespace st) s)] :: body).length
        = body.length + 1
    ∧ ∃ mid, format_docstring (get_leading_whitespace st) s = "\"\"\"" ++ mid ++ "\"\"\"" := by
  refine ⟨?_, by simp, ?_⟩
  · simp only [create_docstring, hcreate, if_true, hgen]
  · refine ⟨"\n" ++ pyJoin "\n" ((pyLines (pyStrip s)).map
        (fun line => pyJoin "\n" (pyWrap 80 (get_leading_whitespace st) line)))
      ++ "\n" ++ get_leading_whitespace st, ?_⟩
    rw [format_docstring,
      show ("\"\"\"\n" : String) = "\"\"\"" ++ "\n" from rfl]
    simp only [String.append_assoc]

/-- Witness for C6: creating a docstring for `def check(n)` with the
fixed-answer oracle. -/
theorem c6_creation_witness :
    create_docstring createOptions fixedOracle (visit_FunctionDef (initState none) "check")
      "check" "check" none "check" "n" none [.simple [.other "return n == 42"]] "did nothing"
      = ({ visit_FunctionDef (initState none) "check" with
          modified := true,
          oracleCalls := (visit_FunctionDef (initState none) "check").oracleCalls + 1 },
        .funcDefn "check" "n" none
          (.simple [.str (format_docstring
              (get_leading_whitespace (visit_FunctionDef (initState none) "check"))
              "Checks equality with 42.")]
            :: [.simple [.other "return n == 42"]]),
        "created a new docstring") :=
  (c6_creation_adds_one_statement createOptions fixedOracle
    (visit_FunctionDef (initState none) "check")
    "check" "check" "check" "n" "did nothing" "Checks equality with 42."
    none [.simple [.other "return n == 42"]] rfl rfl).1

end Luci

namespace Luci

/-! ### Traversal lemmas for the all-skipped runs (claims C8, C10) -/

mutual
/-- No function in this statement (recursively) has a docstring slot
occupied: `get_docstring` returns `None` for every function
definition. -/
def stmtNoDocstring : Stmt → Bool
  | .simple _ => true
  | .funcDefn _ _ _ body => (getDocstring body).isNone && stmtsNoDocstring body
  | .classDefn _ _ body => stmtsNoDocstring body
/-- `stmtNoDocstring` over a statement list. -/
def stmtsNoDocstring : List Stmt → Bool
  | [] => true
  | s :: rest => stmtNoDocstring s && stmtsNoDocstring rest
end

/-- `leave_FunctionDef` when the paths-of-interest list is present but
empty: the function is never in the list, so every function is skipped
(by depth or by interest), the node is returned unchanged and only the
report list grows. -/
theorem leave_empty_list
    (opts : Options) (oracle : Oracle) (st : UpdaterState) (n p : String)
    (hc : Option String) (body : List Stmt)
    (hq : st.qualified_function_names = some []) :
    ∃ act : String,
      leave_FunctionDef opts oracle st n p hc body
        = .ok ({ st with
            leading_whitespace := st.leading_whitespace.dropLast
            function_level := st.function_level - 1
            reports := st.reports ++ [getFQFN st ++ ": " ++ act]
            fully_qualified_function_name := st.fully_qualified_function_name.dropLast },
          .funcDefn n p hc body)
      ∧ (act = notInListAction ∨ ∃ rest, act = "skipped" ++ rest) := by
  by_cases hd : opts.depth < st.function_level ∨ opts.depth < st.class_level
  · obtain ⟨act, heq, hsk⟩ := leave_over_depth_skip opts oracle st n p hc body hd
      (fun l hl => by rw [hq] at hl; cases hl; simp)
    exact ⟨act, heq, Or.inr hsk⟩
  · refine ⟨notInListAction, ?_, Or.inl rfl⟩
    simp only [leave_FunctionDef, hq]
    rw [if_neg hd, if_neg (by simp : ¬((decide (getFQFN st ∈ ([] : List String))) = true))]
    simp [notInListAction, hq]

/-- `leave_FunctionDef` with no paths list, `create` off, and no
docstring on the function: within the depth limit the create branch
does nothing; beyond it the function is skipped.  Either way the node
is returned unchanged and only the report list grows. -/
theorem leave_no_docstring_no_create
    (opts : Options) (oracle : Oracle) (st : UpdaterState) (n p : String)
    (hc : Option String) (body : List Stmt)
    (hcreate : opts.create = false)
    (hq : st.qualified_function_names = none)
    (hnd : getDocstring body = none) :
    ∃ act : String,
      leave_FunctionDef opts oracle st n p hc body
        = .ok ({ st with
            leading_whitespace := st.leading_whitespace.dropLast
            function_level := st.function_level - 1
            reports := st.reports ++ [getFQFN st ++ ": " ++ act]
            fully_qualified_function_name := st.fully_qualified_function_name.dropLast },
          .funcDefn n p hc body)
      ∧ (act = "did nothing" ∨ ∃ rest, act = "skipped" ++ rest) := by
  by_cases hd : opts.depth < st.function_level ∨ opts.depth < st.class_level
  · obtain ⟨act, heq, hsk⟩ := leave_over_depth_skip opts oracle st n p hc body hd
      (fun l hl => by rw [hq] at hl; cases hl)
    exact ⟨act, heq, Or.inr hsk⟩
  · refine ⟨"did nothing", ?_, Or.inl rfl⟩
    simp only [leave_FunctionDef, hq]
    rw [if_neg hd]
    simp [hnd, create_docstring, hcreate, hq]

end Luci

namespace Luci

/-- The report predicate of an empty-list run: every report is a
not-in-list skip or a depth skip. -/
def EmptyListReport (r : String) : Prop :=
  (∃ fq, r = fq ++ ": " ++ notInListAction) ∨ ∃ fq rest, r = fq ++ ": " ++ ("skipped" ++ rest)

/-- Traversal invariant for `qualified_function_names = some []`: the
tree is returned unchanged, only the report list grows (in particular
the modified flag and the oracle-call count are untouched), and every
report is a skip. -/
theorem visit_empty_list (opts : Options) (oracle : Oracle) :
    ∀ (fuel : Nat) (st : UpdaterState) (stmts : List Stmt),
      stmtListSize stmts < fuel →
      st.qualified_function_names = some [] →
      ∃ rs, visitStmts opts oracle fuel st stmts
          = .ok ({ st with reports := st.reports ++ rs }, stmts)
        ∧ ∀ r ∈ rs, EmptyListReport r := by
  intro fuel
  induction fuel with
  | zero => intro st stmts h hq; omega
  | succ fuel ih =>
    intro st stmts hsize hq
    match stmts with
    | [] =>
      refine ⟨[], ?_, by simp⟩
      simp [visitStmts]
    | .simple ss :: rest =>
      have hr : stmtListSize rest < fuel := by
        simp only [stmtListSize, stmtSize] at hsize; omega
      obtain ⟨rs, heq, hP⟩ := ih st rest hr hq
      refine ⟨rs, ?_, hP⟩
      simp only [visitStmts, heq]
    | .funcDefn n p hc body :: rest =>
      have hb : stmtListSize body < fuel := by
        simp only [stmtListSize, stmtSize] at hsize; omega
      have hr : stmtListSize rest < fuel := by
        simp only [stmtListSize, stmtSize] at hsize; omega
      obtain ⟨rs1, heq1, hP1⟩ := ih (visit_FunctionDef st n) body hb
        (by simp [visit_FunctionDef, hq])
      obtain ⟨act, heq2, hact⟩ := leave_empty_list opts oracle
        { visit_FunctionDef st n with
          reports := (visit_FunctionDef st n).reports ++ rs1 } n p hc body
        (by simp [visit_FunctionDef, hq])
      have hst2 : ({ { visit_FunctionDef st n with
            reports := (visit_FunctionDef st n).reports ++ rs1 } with
          leading_whitespace :=
            ({ visit_FunctionDef st n with
              reports := (visit_FunctionDef st n).reports ++ rs1 } : UpdaterState).leading_whitespace.dropLast
          function_level :=
            ({ visit_FunctionDef st n with
              reports := (visit_FunctionDef st n).reports ++ rs1 } : UpdaterState).function_level - 1
          reports :=
            ({ visit_FunctionDef st n with
              reports := (visit_FunctionDef st n).reports ++ rs1 } : UpdaterState).reports
              ++ [getFQFN { visit_FunctionDef st n with
                    reports := (visit_FunctionDef st n).reports ++ rs1 } ++ ": " ++ act]
          fully_qualified_function_name :=
            ({ visit_FunctionDef st n with
              reports := (visit_FunctionDef st n).reports ++ rs1 } : UpdaterState).fully_qualified_function_name.dropLast }
          : UpdaterState)
          = { st with reports := st.reports
              ++ (rs1 ++ [getFQFN { visit_FunctionDef st n with
                    reports := (visit_FunctionDef st n).reports ++ rs1 } ++ ": " ++ act]) } := by
        cases st
        simp [visit_FunctionDef, List.append_assoc]
      rw [hst2] at heq2
      obtain ⟨rs2, heq3, hP2⟩ := ih
        { st with reports := st.reports
            ++ (rs1 ++ [getFQFN { visit_FunctionDef st n with
                  reports := (visit_FunctionDef st n).reports ++ rs1 } ++ ": " ++ act]) }
        rest hr (by simp [hq])
      refine ⟨rs1 ++ [getFQFN { visit_FunctionDef st n with
          reports := (visit_FunctionDef st n).reports ++ rs1 } ++ ": " ++ act] ++ rs2, ?_, ?_⟩
      · simp only [visitStmts, heq1, heq2, heq3]
        simp [List.append_assoc]
      · intro r hrm
        simp only [List.mem_append, List.mem_singleton] at hrm
        rcases hrm with (hrm | hrm) | hrm
        · exact hP1 r hrm
        · subst hrm
          rcases hact with hact | ⟨tl, hact⟩
          · exact Or.inl ⟨getFQFN { visit_FunctionDef st n with
              reports := (visit_FunctionDef st n).reports ++ rs1 }, by rw [hact]⟩
          · exact Or.inr ⟨getFQFN { visit_FunctionDef st n with
              reports := (visit_FunctionDef st n).reports ++ rs1 }, tl, by rw [hact]⟩
        · exact hP2 r hrm
    | .classDefn n hc body :: rest =>
      have hb : stmtListSize body < fuel := by
        simp only [stmtListSize, stmtSize] at hsize; omega
      have hr : stmtListSize rest < fuel := by
        simp only [stmtListSize, stmtSize] at hsize; omega
      obtain ⟨rs1, heq1, hP1⟩ := ih (visit_ClassDef st n) body hb
        (by simp [visit_ClassDef, hq])
      have hst2 : leave_ClassDef { visit_ClassDef st n with
            reports := (visit_ClassDef st n).reports ++ rs1 }
          = { st with reports := st.reports ++ rs1 } := by
        cases st
        simp [visit_ClassDef, leave_ClassDef]
      obtain ⟨rs2, heq3, hP2⟩ := ih { st with reports := st.reports ++ rs1 } rest hr
        (by simp [hq])
      refine ⟨rs1 ++ rs2, ?_, ?_⟩
      · simp only [visitStmts, heq1, hst2, heq3]
        simp [List.append_assoc]
      · intro r hrm
        rcases List.mem_append.mp hrm with hrm | hrm
        · exact hP1 r hrm
        · exact hP2 r hrm

end Luci

namespace Luci

/-! ### Claim C10: empty paths list -/

/-- Claim C10: invoking `document_file` with an empty but non-None
list of qualified function names skips everything: the output text
equals the input text, the modified flag is false, every report is a
skip (the not-in-list action for functions within the depth limit),
and — second conjunct — a function within the depth limit is left with
exactly the not-in-list report, its node, modified flag and
oracle-call count unchanged. -/
theorem c10_empty_list_all_skipped :
    (∀ (opts : Options) (oracle : Oracle) (tree : List Stmt),
      ∃ rs, document_file opts oracle (some []) tree = .ok (moduleCode tree, rs, false)
        ∧ ∀ r ∈ rs, EmptyListReport r)
    ∧ (∀ (opts : Options) (oracle : Oracle) (st : UpdaterState) (n p : String)
        (hc : Option String) (body : List Stmt),
        st.qualified_function_names = some [] →
        st.function_level ≤ opts.depth → st.class_level ≤ opts.depth →
        leave_FunctionDef opts oracle st n p hc body
          = .ok ({ st with
              leading_whitespace := st.leading_whitespace.dropLast
              function_level := st.function_level - 1
              reports := st.reports ++ [getFQFN st ++ ": " ++ notInListAction]
              fully_qualified_function_name := st.fully_qualified_function_name.dropLast },
            .funcDefn n p hc body)) := by
  constructor
  · intro opts oracle tree
    obtain ⟨rs, heq, hP⟩ := visit_empty_list opts oracle (stmtListSize tree + 1)
      (initState (some [])) tree (by omega) rfl
    refine ⟨rs, ?_, hP⟩
    simp only [document_file, heq]
    simp [initState]
  · intro opts oracle st n p hc body hq hf hcl
    simp only [leave_FunctionDef, hq]
    rw [if_neg (by omega : ¬(opts.depth < st.function_level ∨ opts.depth < st.class_level)),
      if_neg (by simp : ¬((decide (getFQFN st ∈ ([] : List String))) = true))]
    simp [hq, notInListAction]

/-- Witness for C10 at a concrete one-function module. -/
theorem c10_empty_list_witness :
    (∃ rs, document_file noopOptions trivialOracle (some [])
        [.funcDefn "f" "" none [.simple [.other "pass"]]]
        = .ok (moduleCode [.funcDefn "f" "" none [.simple [.other "pass"]]], rs, false)
      ∧ ∀ r ∈ rs, EmptyListReport r)
    ∧ leave_FunctionDef noopOptions trivialOracle (visit_FunctionDef (initState (some [])) "f")
        "f" "" none [.simple [.other "pass"]]
      = .ok ({ visit_FunctionDef (initState (some [])) "f" with
          leading_whitespace :=
            (visit_FunctionDef (initState (some [])) "f").leading_whitespace.dropLast
          function_level := (visit_FunctionDef (initState (some [])) "f").function_level - 1
          reports := (visit_FunctionDef (initState (some [])) "f").reports
            ++ [getFQFN (visit_FunctionDef (initState (some [])) "f") ++ ": " ++ notInListAction]
          fully_qualified_function_name :=
            (visit_FunctionDef (initState (some [])) "f").fully_qualified_function_name.dropLast },
        .funcDefn "f" "" none [.simple [.other "pass"]]) :=
  ⟨c10_empty_list_all_skipped.1 noopOptions trivialOracle
      [.funcDefn "f" "" none [.simple [.other "pass"]]],
    c10_empty_list_all_skipped.2 noopOptions trivialOracle
      (visit_FunctionDef (initState (some [])) "f") "f" "" none [.simple [.other "pass"]]
      rfl (by decide) (by decide)⟩

/-! ### Claim C8: strip idempotence -/

/-- The report predicate of a docstring-free no-create run: every
report is "did nothing" or a depth skip. -/
def NoDocReport (r : String) : Prop :=
  (∃ fq, r = fq ++ ": " ++ "did nothing") ∨ ∃ fq rest, r = fq ++ ": " ++ ("skipped" ++ rest)

/-- Traversal invariant for a docstring-free tree with `create` off
and no paths list: the tree is returned unchanged, only the report
list grows, and every processed function reports "did nothing". -/
theorem visit_no_docstrings (opts : Options) (oracle : Oracle)
    (hcreate : opts.create = false) :
    ∀ (fuel : Nat) (st : UpdaterState) (stmts : List Stmt),
      stmtListSize stmts < fuel →
      st.qualified_function_names = none →
      stmtsNoDocstring stmts = true →
      ∃ rs, visitStmts opts oracle fuel st stmts
          = .ok ({ st with reports := st.reports ++ rs }, stmts)
        ∧ ∀ r ∈ rs, NoDocReport r := by
  intro fuel
  induction fuel with
  | zero => intro st stmts h hq hnd; omega
  | succ fuel ih =>
    intro st stmts hsize hq hnd
    match stmts with
    | [] =>
      refine ⟨[], ?_, by simp⟩
      simp [visitStmts]
    | .simple ss :: rest =>
      have hr : stmtListSize rest < fuel := by
        simp only [stmtListSize, stmtSize] at hsize; omega
      have hnd2 : stmtsNoDocstring rest = true := by
        simp only [stmtsNoDocstring, Bool.and_eq_true] at hnd; exact hnd.2
      obtain ⟨rs, heq, hP⟩ := ih st rest hr hq hnd2
      refine ⟨rs, ?_, hP⟩
      simp only [visitStmts, heq]
    | .funcDefn n p hc body :: rest =>
      have hb : stmtListSize body < fuel := by
        simp only [stmtListSize, stmtSize] at hsize; omega
      have hr : stmtListSize rest < fuel := by
        simp only [stmtListSize, stmtSize] at hsize; omega
      have hfd : stmtNoDocstring (.funcDefn n p hc body) = true := by
        simp only [stmtsNoDocstring, Bool.and_eq_true] at hnd; exact hnd.1
      have hgd : getDocstring body = none := by
        simp only [stmtNoDocstring, Bool.and_eq_true, Option.isNone_iff_eq_none] at hfd
        exact hfd.1
      have hndb : stmtsNoDocstring body = true := by
        simp only [stmtNoDocstring, Bool.and_eq_true] at hfd
        exact hfd.2
      have hnd2 : stmtsNoDocstring rest = true := by
        simp only [stmtsNoDocstring, Bool.and_eq_true] at hnd; exact hnd.2
      obtain ⟨rs1, heq1, hP1⟩ := ih (visit_FunctionDef st n) body hb
        (by simp [visit_FunctionDef, hq]) hndb
      obtain ⟨act, heq2, hact⟩ := leave_no_docstring_no_create opts oracle
        { visit_FunctionDef st n with
          reports := (visit_FunctionDef st n).reports ++ rs1 } n p hc body hcreate
        (by simp [visit_FunctionDef, hq]) hgd
      have hst2 : ({ { visit_FunctionDef st n with
            reports := (visit_FunctionDef st n).reports ++ rs1 } with
          leading_whitespace :=
            ({ visit_FunctionDef st n with
              reports := (visit_FunctionDef st n).reports ++ rs1 } : UpdaterState).leading_whitespace.dropLast
          function_level :=
            ({ visit_FunctionDef st n with
              reports := (visit_FunctionDef st n).reports ++ rs1 } : UpdaterState).function_level - 1
          reports :=
            ({ visit_FunctionDef st n with
              reports := (visit_FunctionDef st n).reports ++ rs1 } : UpdaterState).reports
              ++ [getFQFN { visit_FunctionDef st n with
                    reports := (visit_FunctionDef st n).reports ++ rs1 } ++ ": " ++ act]
          fully_qualified_function_name :=
            ({ visit_FunctionDef st n with
              reports := (visit_FunctionDef st n).reports ++ rs1 } : UpdaterState).fully_qualified_function_name.dropLast }
          : UpdaterState)
          = { st with reports := st.reports
              ++ (rs1 ++ [getFQFN { visit_FunctionDef st n with
                    reports := (visit_FunctionDef st n).reports ++ rs1 } ++ ": " ++ act]) } := by
        cases st
        simp [visit_FunctionDef, List.append_assoc]
      rw [hst2] at heq2
      obtain ⟨rs2, heq3, hP2⟩ := ih
        { st with reports := st.reports
            ++ (rs1 ++ [getFQFN { visit_FunctionDef st n with
                  reports := (visit_FunctionDef st n).reports ++ rs1 } ++ ": " ++ act]) }
        rest hr (by simp [hq]) hnd2
      refine ⟨rs1 ++ [getFQFN { visit_FunctionDef st n with
          reports := (visit_FunctionDef st n).reports ++ rs1 } ++ ": " ++ act] ++ rs2, ?_, ?_⟩
      · simp only [visitStmts, heq1, heq2, heq3]
        simp [List.append_assoc]
      · intro r hrm
        simp only [List.mem_append, List.mem_singleton] at hrm
        rcases hrm with (hrm | hrm) | hrm
        · exact hP1 r hrm
        · subst hrm
          rcases hact with hact | ⟨tl, hact⟩
          · exact Or.inl ⟨getFQFN { visit_FunctionDef st n with
              reports := (visit_FunctionDef st n).reports ++ rs1 }, by rw [hact]⟩
          · exact Or.inr ⟨getFQFN { visit_FunctionDef st n with
              reports := (visit_FunctionDef st n).reports ++ rs1 }, tl, by rw [hact]⟩
        · exact hP2 r hrm
    | .classDefn n hc body :: rest =>
      have hb : stmtListSize body < fuel := by
        simp only [stmtListSize, stmtSize] at hsize; omega
      have hr : stmtListSize rest < fuel := by
        simp only [stmtListSize, stmtSize] at hsize; omega
      have hndb : stmtsNoDocstring body = true := by
        simp only [stmtsNoDocstring, stmtNoDocstring, Bool.and_eq_true] at hnd; exact hnd.1
      have hnd2 : stmtsNoDocstring rest = true := by
        simp only [stmtsNoDocstring, Bool.and_eq_true] at hnd; exact hnd.2
      obtain ⟨rs1, heq1, hP1⟩ := ih (visit_ClassDef st n) body hb
        (by simp [visit_ClassDef, hq]) hndb
      have hst2 : leave_ClassDef { visit_ClassDef st n with
            reports := (visit_ClassDef st n).reports ++ rs1 }
          = { st with reports := st.reports ++ rs1 } := by
        cases st
        simp [visit_ClassDef, leave_ClassDef]
      obtain ⟨rs2, heq3, hP2⟩ := ih { st with reports := st.reports ++ rs1 } rest hr
        (by simp [hq]) hnd2
      refine ⟨rs1 ++ rs2, ?_, ?_⟩
      · simp only [visitStmts, heq1, hst2, heq3]
        simp [List.append_assoc]
      · intro r hrm
        rcases List.mem_append.mp hrm with hrm | hrm
        · exact hP1 r hrm
        · exact hP2 r hrm

/-- Claim C8 (counterexample): stripping is not idempotent.  The
function `def f():\n    "d"\n    "x"\n    pass\n` is stripped to
`def f():\n    "x"\n    pass\n`; feeding that output into a second
strip run strips again — the second statement, now in docstring
position, is removed, the text changes once more, the modified flag is
true, and the recorded action is "stripped existing docstring" rather
than "did nothing". -/
theorem c8_strip_not_idempotent :
    document_file stripOptions trivialOracle none
      [.funcDefn "f" "" none
        [.simple [.str "\"d\""], .simple [.str "\"x\""], .simple [.other "pass"]]]
      = .ok (moduleCode [.funcDefn "f" "" none
          [.simple [.str "\"x\""], .simple [.other "pass"]]],
        ["f: stripped existing docstring"], true)
    ∧ document_file stripOptions trivialOracle none
      [.funcDefn "f" "" none [.simple [.str "\"x\""], .simple [.other "pass"]]]
      = .ok ("def f():\n    pass\n", ["f: stripped existing docstring"], true)
    ∧ "def f():\n    pass\n"
      ≠ moduleCode [.funcDefn "f" "" none [.simple [.str "\"x\""], .simple [.other "pass"]]]
    ∧ ("f: stripped existing docstring" : String) ≠ "f: did nothing" :=
  ⟨rfl, rfl, by decide, by decide⟩

/-- Claim C8 (amended): a second strip run makes no further change and
records "did nothing" for every function it processes, PROVIDED the
first run's output contains no function whose first body statement is
still a bare string literal (stripping can re-expose a consecutive
string literal as the new docstring, in which case the second run
strips again).  Stated over any tree with no occupied docstring slots
and any configuration with `create` off. -/
theorem c8_strip_idempotent_amended
    (opts : Options) (oracle : Oracle) (tree : List Stmt)
    (hcreate : opts.create = false)
    (hnd : stmtsNoDocstring tree = true) :
    ∃ rs, document_file opts oracle none tree = .ok (moduleCode tree, rs, false)
      ∧ ∀ r ∈ rs, NoDocReport r := by
  obtain ⟨rs, heq, hP⟩ := visit_no_docstrings opts oracle hcreate (stmtListSize tree + 1)
    (initState none) tree (by omega) rfl hnd
  refine ⟨rs, ?_, hP⟩
  simp only [document_file, heq]
  simp [initState]

/-- Witness for the amended C8: the first run's output of the
counterexample family without the second string literal,
`def f():\n    pass\n`, is unchanged by a second strip run. -/
theorem c8_strip_idempotent_amended_witness :
    ∃ rs, document_file stripOptions trivialOracle none
        [.funcDefn "f" "" none [.simple [.other "pass"]]]
      = .ok (moduleCode [.funcDefn "f" "" none [.simple [.other "pass"]]], rs, false)
      ∧ ∀ r ∈ rs, NoDocReport r :=
  c8_strip_idempotent_amended stripOptions trivialOracle
    [.funcDefn "f" "" none [.simple [.other "pass"]]] rfl (by decide)

end Luci

namespace Luci

/-! ### Claim C7: the formatting bound -/

theorem chunksLen_append (a b : List (List Char)) :
    chunksLen (a ++ b) = chunksLen a + chunksLen b := by
  simp [chunksLen]

/-- The greedy fill never exceeds the budget. -/
theorem takeChunks_len (avail : Nat) :
    ∀ (cs : List (List Char)) (curLen : Nat), curLen ≤ avail →
      curLen + chunksLen (takeChunks avail curLen cs).1 ≤ avail := by
  intro cs
  induction cs with
  | nil => intro curLen h; simpa [takeChunks, chunksLen] using h
  | cons ch rest ih =>
    intro curLen h
    simp only [takeChunks]
    split
    · next hfits =>
      have := ih (curLen + ch.length) hfits
      simp only [chunksLen, List.map_cons, List.sum_cons]
      simp only [chunksLen] at this
      omega
    · simpa [chunksLen] using h

theorem takeChunks_taken_mem (avail : Nat) :
    ∀ (cs : List (List Char)) (curLen : Nat) (ch : List Char),
      ch ∈ (takeChunks avail curLen cs).1 → ch ∈ cs := by
  intro cs
  induction cs with
  | nil => intro curLen ch h; simp [takeChunks] at h
  | cons c0 rest ih =>
    intro curLen ch h
    simp only [takeChunks] at h
    split at h
    · rcases List.mem_cons.mp h with h | h
      · exact h ▸ List.mem_cons_self ..
      · exact List.mem_cons_of_mem _ (ih _ ch h)
    · simp at h

theorem takeChunks_rest_mem (avail : Nat) :
    ∀ (cs : List (List Char)) (curLen : Nat) (ch : List Char),
      ch ∈ (takeChunks avail curLen cs).2 → ch ∈ cs := by
  intro cs
  induction cs with
  | nil => intro curLen ch h; simp [takeChunks] at h
  | cons c0 rest ih =>
    intro curLen ch h
    simp only [takeChunks] at h
    split at h
    · exact List.mem_cons_of_mem _ (ih _ ch h)
    · exact h

theorem chunksLen_dropLast_le :
    ∀ l : List (List Char), chunksLen l.dropLast ≤ chunksLen l := by
  intro l
  induction l with
  | nil => simp
  | cons x xs ih =>
    cases xs with
    | nil => simp [chunksLen]
    | cons y ys =>
      simp only [List.dropLast_cons₂, chunksLen, List.map_cons, List.sum_cons] at ih ⊢
      omega

theorem chunksLen_dropTrailing (l : List (List Char)) :
    chunksLen (dropTrailingSpaceChunk l) ≤ chunksLen l := by
  rw [dropTrailingSpaceChunk]
  split
  · split
    · exact chunksLen_dropLast_le l
    · exact Nat.le_refl _
  · exact Nat.le_refl _

theorem mem_dropTrailing (l : List (List Char)) (ch : List Char)
    (h : ch ∈ dropTrailingSpaceChunk l) : ch ∈ l := by
  rw [dropTrailingSpaceChunk] at h
  split at h
  · split at h
    · exact List.mem_of_mem_dropLast h
    · exact h
  · exact h

theorem dropLeading_mem (first : Bool) (chunks : List (List Char)) (ch : List Char)
    (h : ch ∈ dropLeadingSpaceChunk first chunks) : ch ∈ chunks := by
  cases first with
  | true => exact h
  | false =>
    cases chunks with
    | nil => exact h
    | cons c0 cs =>
      rw [show dropLeadingSpaceChunk false (c0 :: cs)
          = if isSpaceChunk c0 then cs else (c0 :: cs) from rfl] at h
      split at h
      · exact List.mem_cons_of_mem _ h
      · exact h

theorem longWordStep_len (avail : Nat) (hav : 1 ≤ avail)
    (taken rest : List (List Char)) (htaken : chunksLen taken ≤ avail) :
    chunksLen (longWordStep avail taken rest).1 ≤ avail := by
  cases rest with
  | nil => simpa [longWordStep] using htaken
  | cons ch0 rest2 =>
    simp only [longWordStep]
    split
    · rw [if_neg (by omega), chunksLen_append]
      have h2 : chunksLen [List.take (avail - chunksLen taken) ch0]
          ≤ avail - chunksLen taken := by
        simp [chunksLen, List.length_take]
      omega
    · exact htaken

theorem longWordStep_chars (avail : Nat) (taken rest : List (List Char))
    (Q : Char → Prop)
    (htaken : ∀ ch ∈ taken, ∀ c ∈ ch, Q c) (hrest : ∀ ch ∈ rest, ∀ c ∈ ch, Q c) :
    (∀ ch ∈ (longWordStep avail taken rest).1, ∀ c ∈ ch, Q c)
    ∧ ∀ ch ∈ (longWordStep avail taken rest).2, ∀ c ∈ ch, Q c := by
  cases rest with
  | nil => exact ⟨by simpa [longWordStep] using htaken, by simp [longWordStep]⟩
  | cons ch0 rest2 =>
    have hch0 : ∀ c ∈ ch0, Q c := hrest ch0 (List.mem_cons_self ..)
    have hrest2 : ∀ ch ∈ rest2, ∀ c ∈ ch, Q c :=
      fun ch h => hrest ch (List.mem_cons_of_mem _ h)
    simp only [longWordStep]
    split
    · refine ⟨fun ch h c hc => ?_, fun ch h c hc => ?_⟩
      · rcases List.mem_append.mp h with h2 | h2
        · exact htaken ch h2 c hc
        · simp only [List.mem_singleton] at h2
          subst h2
          exact hch0 c (List.mem_of_mem_take hc)
      · rcases List.mem_cons.mp h with h2 | h2
        · subst h2
          exact hch0 c (List.mem_of_mem_drop hc)
        · exact hrest2 ch h2 c hc
    · exact ⟨htaken, hrest⟩

/-- One wrap iteration emits a line of at most `avail` characters
(past the indent). -/
theorem wrapStep_line_len (avail : Nat) (hav : 1 ≤ avail)
    (first : Bool) (chunks : List (List Char)) :
    chunksLen (wrapStep avail first chunks).1 ≤ avail := by
  rw [wrapStep]
  refine Nat.le_trans (chunksLen_dropTrailing _) ?_
  refine longWordStep_len avail hav _ _ ?_
  have := takeChunks_len avail (dropLeadingSpaceChunk first chunks) 0 (by omega)
  omega

/-- Characters of one wrap iteration's line and remainder come from
the incoming chunks. -/
theorem wrapStep_chars (avail : Nat) (first : Bool) (chunks : List (List Char))
    (Q : Char → Prop) (hch : ∀ ch ∈ chunks, ∀ c ∈ ch, Q c) :
    (∀ ch ∈ (wrapStep avail first chunks).1, ∀ c ∈ ch, Q c)
    ∧ ∀ ch ∈ (wrapStep avail first chunks).2, ∀ c ∈ ch, Q c := by
  rw [wrapStep]
  have hch1 : ∀ ch ∈ dropLeadingSpaceChunk first chunks, ∀ c ∈ ch, Q c :=
    fun ch h => hch ch (dropLeading_mem first chunks ch h)
  have htaken : ∀ ch ∈ (takeChunks avail 0 (dropLeadingSpaceChunk first chunks)).1,
      ∀ c ∈ ch, Q c :=
    fun ch h => hch1 ch (takeChunks_taken_mem avail _ 0 ch h)
  have hrest : ∀ ch ∈ (takeChunks avail 0 (dropLeadingSpaceChunk first chunks)).2,
      ∀ c ∈ ch, Q c :=
    fun ch h => hch1 ch (takeChunks_rest_mem avail _ 0 ch h)
  have hlw := longWordStep_chars avail _ _ Q htaken hrest
  exact ⟨fun ch h => hlw.1 ch (mem_dropTrailing _ ch h), hlw.2⟩

/-- Every line produced by the wrap loop is the indent followed by at
most `avail` characters drawn from the chunks. -/
theorem wrapGo_lines (avail : Nat) (ind : String) (hav : 1 ≤ avail)
    (Q : Char → Prop) :
    ∀ (fuel : Nat) (first : Bool) (chunks : List (List Char)),
      (∀ ch ∈ chunks, ∀ c ∈ ch, Q c) →
      ∀ l ∈ wrapGo avail ind fuel first chunks,
        ∃ r : List Char, l = ind ++ String.mk r ∧ r.length ≤ avail ∧ ∀ c ∈ r, Q c := by
  intro fuel
  induction fuel with
  | zero => intro first chunks _ l hl; simp [wrapGo] at hl
  | succ fuel ih =>
    intro first chunks hch l hl
    match chunks with
    | [] => simp [wrapGo] at hl
    | c0 :: cs =>
      simp only [wrapGo] at hl
      have hsc := wrapStep_chars avail first (c0 :: cs) Q hch
      split at hl
      · exact ih first _ hsc.2 l hl
      · rcases List.mem_cons.mp hl with hl | hl
        · refine ⟨(wrapStep avail first (c0 :: cs)).1.flatten, hl, ?_, ?_⟩
          · rw [List.length_flatten]
            exact wrapStep_line_len avail hav first (c0 :: cs)
          · intro c hc
            obtain ⟨ch, hch2, hc2⟩ := List.mem_flatten.mp hc
            exact hsc.1 ch hch2 c hc2
        · exact ih false _ hsc.2 l hl

/-- Characters contributed by `chunksAdd` are the new character or
characters of the accumulator. -/
theorem chunksAdd_mem_chars (c : Char) (acc : List (List Char)) (ch : List Char)
    (hch : ch ∈ chunksAdd c acc) (x : Char) (hx : x ∈ ch) :
    x = c ∨ ∃ ch0 ∈ acc, x ∈ ch0 := by
  match acc with
  | [] =>
    simp only [chunksAdd, List.mem_singleton] at hch
    subst hch
    simp only [List.mem_singleton] at hx
    exact Or.inl hx
  | (d :: ds) :: rest =>
    simp only [chunksAdd] at hch
    split at hch
    · rcases List.mem_cons.mp hch with h | h
      · subst h
        rcases List.mem_cons.mp hx with h2 | h2
        · exact Or.inl h2
        · exact Or.inr ⟨d :: ds, List.mem_cons_self .., h2⟩
      · exact Or.inr ⟨ch, List.mem_cons_of_mem _ h, hx⟩
    · rcases List.mem_cons.mp hch with h | h
      · subst h
        simp only [List.mem_singleton] at hx
        exact Or.inl hx
      · rcases List.mem_cons.mp h with h2 | h2
        · subst h2
          exact Or.inr ⟨d :: ds, List.mem_cons_self .., hx⟩
        · exact Or.inr ⟨ch, List.mem_cons_of_mem _ h2, hx⟩
  | [] :: rest =>
    simp only [chunksAdd] at hch
    rcases List.mem_cons.mp hch with h | h
    · subst h
      simp only [List.mem_singleton] at hx
      exact Or.inl hx
    · exact Or.inr ⟨ch, List.mem_cons_of_mem _ h, hx⟩

/-- Characters of the chunks of a line are characters of the line. -/
theorem chunksGo_mem_chars :
    ∀ (l : List Char) (ch : List Char), ch ∈ chunksGo l → ∀ c ∈ ch, c ∈ l := by
  intro l
  induction l with
  | nil => intro ch h; simp [chunksGo] at h
  | cons x xs ih =>
    intro ch hch c hc
    simp only [chunksGo] at hch
    rcases chunksAdd_mem_chars x (chunksGo xs) ch hch c hc with h | ⟨ch0, hch0, hc0⟩
    · exact h ▸ List.mem_cons_self ..
    · exact List.mem_cons_of_mem _ (ih ch0 hch0 c hc0)

/-- Munging replaces every whitespace character (newlines included) by
a space. -/
theorem munge_no_newline (s : String) : ∀ c ∈ mungeLine s, c ≠ '\n' := by
  intro c hc
  rw [mungeLine] at hc
  obtain ⟨x, _, hx⟩ := List.mem_map.mp hc
  intro hcn
  subst hcn
  split at hx
  · exact absurd hx.symm (by decide)
  · next hws => subst hx; exact hws (by decide)

end Luci

namespace Luci

/-! ### `pyJoin` decomposition lemmas -/

theorem pyJoin_cons (sep x : String) (xs : List String) (h : xs ≠ []) :
    pyJoin sep (x :: xs) = x ++ sep ++ pyJoin sep xs := by
  cases xs with
  | nil => exact absurd rfl h
  | cons y ys => rfl

theorem pyJoin_append (sep : String) :
    ∀ (l1 l2 : List String), l1 ≠ [] → l2 ≠ [] →
      pyJoin sep (l1 ++ l2) = pyJoin sep l1 ++ sep ++ pyJoin sep l2 := by
  intro l1
  induction l1 with
  | nil => intro l2 h _; exact absurd rfl h
  | cons x xs ih =>
    intro l2 _ h2
    cases xs with
    | nil =>
      rw [List.singleton_append, pyJoin_cons sep x l2 h2]
      rfl
    | cons y ys =>
      rw [List.cons_append, pyJoin_cons sep x ((y :: ys) ++ l2) (by simp),
        ih l2 (by simp) h2, pyJoin_cons sep x (y :: ys) (by simp)]
      simp only [String.append_assoc]

theorem flatMap_ne_nil (g : String → List String) (hg : ∀ x, g x ≠ [])
    (xs : List String) (hxs : xs ≠ []) : xs.flatMap g ≠ [] := by
  cases xs with
  | nil => exact absurd rfl hxs
  | cons x rest =>
    simp only [List.flatMap_cons]
    intro h
    exact hg x (List.append_eq_nil.mp h).1

theorem pyJoin_map_flatMap (sep : String) (g : String → List String)
    (hg : ∀ x, g x ≠ []) :
    ∀ xs : List String,
      pyJoin sep (xs.map fun x => pyJoin sep (g x)) = pyJoin sep (xs.flatMap g) := by
  intro xs
  induction xs with
  | nil => rfl
  | cons x xs ih =>
    cases hxs : xs with
    | nil => simp [pyJoin]
    | cons y ys =>
      subst hxs
      have e1 : pyJoin sep ((x :: y :: ys).map fun t => pyJoin sep (g t))
          = pyJoin sep (g x) ++ sep ++ pyJoin sep ((y :: ys).map fun t => pyJoin sep (g t)) :=
        pyJoin_cons sep _ _ (by simp)
      have e3 : pyJoin sep ((x :: y :: ys).flatMap g)
          = pyJoin sep (g x ++ (y :: ys).flatMap g) := by
        rw [List.flatMap_cons]
      have e4 : pyJoin sep (g x ++ (y :: ys).flatMap g)
          = pyJoin sep (g x) ++ sep ++ pyJoin sep ((y :: ys).flatMap g) :=
        pyJoin_append sep (g x) ((y :: ys).flatMap g) (hg x)
          (flatMap_ne_nil g hg (y :: ys) (by simp))
      rw [e1, ih, e3, e4]

theorem wrappedOrBlank_ne_nil (lws x : String) : wrappedOrBlank lws x ≠ [] := by
  rw [wrappedOrBlank]
  split
  · simp
  · next h => exact h

theorem pyJoin_wrappedOrBlank (sep lws x : String) :
    pyJoin sep (wrappedOrBlank lws x) = pyJoin sep (pyWrap 80 lws x) := by
  rw [wrappedOrBlank]
  split
  · next h => rw [h]; rfl
  · rfl

theorem splitOnChar_ne_nil (c : Char) : ∀ l : List Char, splitOnChar c l ≠ [] := by
  intro l
  cases l with
  | nil => simp [splitOnChar]
  | cons x xs =>
    rw [splitOnChar]
    split
    · simp
    · split
      · simp
      · simp

theorem pyLines_ne_nil (s : String) : pyLines s ≠ [] := by
  rw [pyLines]
  intro h
  exact splitOnChar_ne_nil '\n' s.data (List.map_eq_nil_iff.mp h)

/-- The formatted docstring is the newline-join of its line
decomposition. -/
theorem format_docstring_eq_lines (lws doc : String) :
    format_docstring lws doc = pyJoin "\n" (format_docstring_lines lws doc) := by
  have hlines := pyLines_ne_nil (pyStrip doc)
  have hM : (pyLines (pyStrip doc)).flatMap (wrappedOrBlank lws) ≠ [] :=
    flatMap_ne_nil _ (wrappedOrBlank_ne_nil lws) _ hlines
  rw [format_docstring_lines,
    pyJoin_append "\n" ("\"\"\"" :: (pyLines (pyStrip doc)).flatMap (wrappedOrBlank lws))
      [lws ++ "\"\"\""] (by simp) (by simp),
    pyJoin_cons "\n" "\"\"\"" ((pyLines (pyStrip doc)).flatMap (wrappedOrBlank lws)) hM]
  have hmap : (pyLines (pyStrip doc)).map
      (fun line => pyJoin "\n" (pyWrap 80 lws line))
      = (pyLines (pyStrip doc)).map
        (fun line => pyJoin "\n" (wrappedOrBlank lws line)) :=
    List.map_congr_left fun a _ => (pyJoin_wrappedOrBlank "\n" lws a).symm
  rw [format_docstring, hmap, pyJoin_map_flatMap "\n" _ (wrappedOrBlank_ne_nil lws),
    show ("\"\"\"\n" : String) = "\"\"\"" ++ "\n" from rfl]
  simp only [String.append_assoc, pyJoin]

/-- Claim C7 (counterexample): the docstring `a\n\nb` with indent four
spaces formats with an interior blank line carrying no indent at all,
so "every line between the delimiters begins with exactly the captured
indent" fails as stated. -/
theorem c7_blank_line_counterexample :
    format_docstring "    " "a\n\nb" = "\"\"\"\n    a\n\n    b\n    \"\"\""
    ∧ format_docstring_lines "    " "a\n\nb"
      = ["\"\"\"", "    a", "", "    b", "    \"\"\""]
    ∧ format_docstring "    " "a\n\nb"
      = pyJoin "\n" (format_docstring_lines "    " "a\n\nb")
    ∧ ("" : String) ∈ ((format_docstring_lines "    " "a\n\nb").drop 1).dropLast
    ∧ ¬ ∃ r, ("" : String) = "    " ++ r := by
  refine ⟨rfl, rfl, rfl, by decide, ?_⟩
  rintro ⟨r, h⟩
  have hlen := congrArg String.length h
  rw [String.length_append] at hlen
  have h0 : ("" : String).length = 0 := rfl
  have h4 : ("    " : String).length = 4 := rfl
  omega

/-- Claim C7 (amended): every line of `format_docstring lws doc` has
length at most `lws.length + 80`; the first line is the opening
delimiter, the last is the closing delimiter indented to `lws`, and
every line in between either is blank (a blank input line produces an
unindented empty output line — the uncorrected claim fails there) or
begins with exactly the captured indent.  The conjunction also pins
down that these really are the lines of the output: the output is
their newline-join and none of them contains a newline (given a
newline-free indent). -/
theorem c7_formatting_bound_amended (lws docstring : String)
    (hlws : ∀ c ∈ lws.data, c ≠ '\n') :
    format_docstring lws docstring = pyJoin "\n" (format_docstring_lines lws docstring)
    ∧ (∃ mid, format_docstring_lines lws docstring = "\"\"\"" :: mid ++ [lws ++ "\"\"\""]
        ∧ ∀ l ∈ mid, l = "" ∨ ∃ r : String, l = lws ++ r)
    ∧ (∀ l ∈ format_docstring_lines lws docstring, l.length ≤ lws.length + 80)
    ∧ ∀ l ∈ format_docstring_lines lws docstring, ∀ c ∈ l.data, c ≠ '\n' := by
  have hmid : ∀ l ∈ (pyLines (pyStrip docstring)).flatMap (wrappedOrBlank lws),
      l = "" ∨ ∃ r : List Char, l = lws ++ String.mk r ∧ r.length ≤ 80 ∧ ∀ c ∈ r, c ≠ '\n' := by
    intro l hl
    obtain ⟨line, _, hwl⟩ := List.mem_flatMap.mp hl
    rw [wrappedOrBlank] at hwl
    split at hwl
    · simp only [List.mem_singleton] at hwl
      exact Or.inl hwl
    · refine Or.inr ?_
      have hchunks : ∀ ch ∈ chunksGo (mungeLine line), ∀ c ∈ ch, c ≠ '\n' :=
        fun ch hch c hc => munge_no_newline line c (chunksGo_mem_chars _ ch hch c hc)
      exact wrapGo_lines 80 lws (by omega) (fun c => c ≠ '\n') _ true _ hchunks l hwl
  refine ⟨format_docstring_eq_lines lws docstring, ?_, ?_, ?_⟩
  · refine ⟨(pyLines (pyStrip docstring)).flatMap (wrappedOrBlank lws), rfl, ?_⟩
    intro l hl
    rcases hmid l hl with h | ⟨r, hr, _, _⟩
    · exact Or.inl h
    · exact Or.inr ⟨String.mk r, hr⟩
  · intro l hl
    rw [format_docstring_lines] at hl
    have h3q : ("\"\"\"" : String).length = 3 := rfl
    have h0q : ("" : String).length = 0 := rfl
    rcases List.mem_cons.mp hl with h | h
    · subst h
      omega
    · rcases List.mem_append.mp h with h2 | h2
      · rcases hmid l h2 with h3 | ⟨r, hr, hlen, _⟩
        · subst h3
          omega
        · subst hr
          rw [String.length_append]
          have : (String.mk r).length = r.length := rfl
          omega
      · simp only [List.mem_singleton] at h2
        subst h2
        rw [String.length_append]
        omega
  · intro l hl
    rw [format_docstring_lines] at hl
    rcases List.mem_cons.mp hl with h | h
    · subst h
      decide
    · rcases List.mem_append.mp h with h2 | h2
      · rcases hmid l h2 with h3 | ⟨r, hr, _, hrc⟩
        · subst h3
          simp
        · subst hr
          intro c hc
          rw [String.data_append] at hc
          rcases List.mem_append.mp hc with h4 | h4
          · exact hlws c h4
          · exact hrc c h4
      · simp only [List.mem_singleton] at h2
        subst h2
        intro c hc
        rw [String.data_append] at hc
        rcases List.mem_append.mp hc with h4 | h4
        · exact hlws c h4
        · have hq : ∀ x ∈ ("\"\"\"" : String).data, x ≠ '\n' := by decide
          exact hq c h4

/-- Witness for the amended C7 at indent `"    "` and docstring
`"hello"`. -/
theorem c7_formatting_bound_amended_witness :
    format_docstring "    " "hello" = pyJoin "\n" (format_docstring_lines "    " "hello")
    ∧ (∃ mid, format_docstring_lines "    " "hello" = "\"\"\"" :: mid ++ ["    " ++ "\"\"\""]
        ∧ ∀ l ∈ mid, l = "" ∨ ∃ r : String, l = "    " ++ r)
    ∧ (∀ l ∈ format_docstring_lines "    " "hello",
        l.length ≤ ("    " : String).length + 80)
    ∧ ∀ l ∈ format_docstring_lines "    " "hello", ∀ c ∈ l.data, c ≠ '\n' :=
  c7_formatting_bound_amended "    " "hello" (by decide)

end Luci
